import Mathlib

set_option maxRecDepth 4000

/-!
Verification of the MU-MIMO beamforming-training evaluation program
(`evaluate_11ay_mu_mimo.cc`).  The development embeds the trace handlers
that contain the selection and reduction logic:

* `MuMimoMimoPhaseMeasurements` — the MIMO-phase score-reduction drain
  (modelled by `run` below),
* `MuMimoSisoPhaseComplete` — SISO completion, ranking and MIMO-phase start
  (modelled by `muMimoSisoPhaseComplete`),
* `MuMimoSisoPhaseMeasurements` — the SISO measurement trace writer,
* `MuMimoMimoCandidatesSelected` — the MIMO-candidates trace writer,
* `SLSCompleted` / `DataTransmissionIntervalStartedAp` — the global
  counter state machine that triggers MU-MIMO beamforming.

C++ `std::vector::at` (bounds-checked, throwing) is modelled by `atNat` /
`atIdx` returning `Except`.  `double` SNR values are modelled by `ℚ`: the
program only compares, copies and converts them, so ordering facts carry
over.  Machine integers (`uint8_t`, `uint16_t`) are modelled by `Nat`
with explicit `% 256` where a truncating conversion occurs in the source.
-/

namespace EvaluateMuMimo

/-- Linear-power-ratio signal quality (C++ `double SNR`). -/
abbrev Snr := ℚ

/-- The single failure kind of the embedded handlers: a bounds-checked
container access out of range (C++ `std::out_of_range` from `.at`; the
dereference of `begin ()` on an empty map is also modelled by it). -/
inductive Err where
  | outOfRange
deriving DecidableEq, Repr

/-- Bounds-checked element access, C++ `v.at (i)` for an unsigned index. -/
def atNat (l : List α) (i : Nat) : Except Err α :=
  match l.get? i with
  | some a => .ok a
  | none => .error .outOfRange

/-- Bounds-checked element access at a signed index: a negative index is
out of range (in the source the `int` index is converted to `size_t`,
wrapping to a huge value, so `.at` throws). -/
def atIdx (l : List α) (i : Int) : Except Err α :=
  if i < 0 then .error .outOfRange else atNat l i.toNat

/-! ## The max-first priority queue

`SNR_MEASUREMENT_AWV_IDs_QUEUE` is a `std::priority_queue` of pairs
`(min-stream SNR, MEASUREMENT_AWV_IDs)`; `top ()` returns a greatest
element (greatest key first).  The destructive `top/pop` drain is
modelled by repeatedly extracting a maximal-key element.  (The C++ queue
breaks key ties by comparing the id payloads; every claim below concerns
only the key order, which is independent of the tie-break.) -/

/-- `MEASUREMENT_AWV_IDs`: the TX AWV id together with the map from RX
antenna id to RX AWV id (`awvId.first` / `awvId.second` in the source,
the map in key order). -/
structure MeasurementAwvIds where
  txId : Nat
  rxAwvIds : List (Nat × Nat)
deriving DecidableEq, Repr

/-- One element of the priority queue: (min per-stream SNR, ids). -/
abbrev QueueEntry := Snr × MeasurementAwvIds

/-- Extract a maximal-key element from `e :: l`, returning it together
with the remaining elements. -/
def selectMax (e : QueueEntry) : List QueueEntry → QueueEntry × List QueueEntry
  | [] => (e, [])
  | x :: xs =>
    if e.1 < x.1 then
      let p := selectMax x xs
      (p.1, e :: p.2)
    else
      let p := selectMax e xs
      (p.1, x :: p.2)

/-- Fuel-indexed drain; the fuel is an upper bound on the queue size,
so each extraction step strictly shrinks the list. -/
def drainAux : Nat → List QueueEntry → List QueueEntry
  | 0, _ => []
  | _ + 1, [] => []
  | n + 1, x :: xs => (selectMax x xs).1 :: drainAux n (selectMax x xs).2

/-- Drain the priority queue: repeatedly `top ()` then `pop ()`, greatest
key first (the `while (!minSnr.empty ())` loop order). -/
def drain (l : List QueueEntry) : List QueueEntry := drainAux l.length l

/-! ## The MIMO-phase measurement reduction (`MuMimoMimoPhaseMeasurements`)

The handler drains the queue; for each popped entry it fetches the
per-stream measurement block of its (tx, rx) pair from the flat sweep at
`(txId - 1) * rxCombinationsTested + rxId - 1`, writes a row to the full
trace stream, and writes the same row to the reduced trace stream unless
the entry's `txId` was already emitted there (`differentRxConfigs`
disables that suppression). -/

/-- One element of `MIMO_SNR_LIST`: a measurement block, a tag paired
with the vector of per-stream SNR values (`.second` in the source). -/
abbrev SweepElem := Nat × List Snr

/-- A `MIMO_AWV_CONFIGURATION`: per-antenna ((antenna id, sector id), awv id). -/
abbrev MimoAwvConfig := List ((Nat × Nat) × Nat)

/-- The handler's inputs other than the queue: dimensions, the flat
measurement sweep, the codebook lookups (external collaborators, taken
as given functions), the dB conversion used at the reporting boundary
(`RatioToDb`, likewise a given function), and the dedup flag. -/
structure Env where
  nTx : Nat
  nRx : Nat
  rxCombinationsTested : Nat
  sweep : List SweepElem
  getTxConfig : Nat → MimoAwvConfig
  getRxConfig : List (Nat × Nat) → MimoAwvConfig
  db : Snr → ℚ
  differentRxConfigs : Bool

/-- One line written to a trace stream (identical for the full and the
reduced stream): the combination columns, the fetched measurement
blocks, the SNR columns in dB, and the min-stream SNR in dB.  The
linear-domain key `minSnr` and the ids are kept for stating properties. -/
structure Row where
  txCols : MimoAwvConfig
  rxCols : MimoAwvConfig
  txId : Nat
  rxAwvIds : List (Nat × Nat)
  measurements : List SweepElem
  snrDb : List ℚ
  minSnrDb : ℚ
  minSnr : Snr
deriving DecidableEq, Repr

/-- The measurement-fetch loop: for each `(rxAntenna, rxId)` in
`awvId.second`, `mimoMeasurements.at ((txId - 1) * rxCombinationsTested
+ rxId.second - 1)` (signed arithmetic, bounds-checked). -/
def fetchMeasurements (sweep : List SweepElem) (rxC txId : Nat) :
    List (Nat × Nat) → Except Err (List SweepElem)
  | [] => .ok []
  | r :: rs =>
    match atIdx sweep (((txId : Int) - 1) * (rxC : Int) + (r.2 : Int) - 1) with
    | .error e => .error e
    | .ok m =>
      match fetchMeasurements sweep rxC txId rs with
      | .error e => .error e
      | .ok ms => .ok (m :: ms)

/-- The combination-column loop `cfg.at (start) .. cfg.at (start + n - 1)`
(used with `start = 0` and `n` the antenna count). -/
def takeCheckedFrom (l : List α) (start : Nat) : Nat → Except Err (List α)
  | 0 => .ok []
  | n + 1 =>
    match atNat l start with
    | .error e => .error e
    | .ok a =>
      match takeCheckedFrom l (start + 1) n with
      | .error e => .error e
      | .ok as => .ok (a :: as)

/-- The inner SNR-column loop for a fixed tx-antenna index `i`:
`measurements.at (j).second.at (i * nRx + j)` for `j = 0 .. nRx - 1`
(`snrIndex` equals `i * nRx + j` at iteration `(i, j)`). -/
def snrCells (ms : List SweepElem) (nRx i : Nat) : List Nat → Except Err (List Snr)
  | [] => .ok []
  | j :: js =>
    match atNat ms j with
    | .error e => .error e
    | .ok m =>
      match atNat m.2 (i * nRx + j) with
      | .error e => .error e
      | .ok s =>
        match snrCells ms nRx i js with
        | .error e => .error e
        | .ok ss => .ok (s :: ss)

/-- The outer SNR-column loop over tx-antenna indices. -/
def snrRows (ms : List SweepElem) (nRx : Nat) : List Nat → Except Err (List Snr)
  | [] => .ok []
  | i :: is =>
    match snrCells ms nRx i (List.range nRx) with
    | .error e => .error e
    | .ok row =>
      match snrRows ms nRx is with
      | .error e => .error e
      | .ok rest => .ok (row ++ rest)

/-- The body of the drain loop for one popped entry `q = (minSnr, awvId)`:
codebook lookups, the measurement fetch, then the row contents in the
order the source writes (and bounds-checks) them. -/
def processEntry (env : Env) (q : QueueEntry) : Except Err Row :=
  let rxCombination := env.getRxConfig q.2.rxAwvIds
  let txCombination := env.getTxConfig q.2.txId
  match fetchMeasurements env.sweep env.rxCombinationsTested q.2.txId q.2.rxAwvIds with
  | .error e => .error e
  | .ok measurements =>
    match takeCheckedFrom txCombination 0 env.nTx with
    | .error e => .error e
    | .ok txCols =>
      match takeCheckedFrom rxCombination 0 env.nRx with
      | .error e => .error e
      | .ok rxCols =>
        match snrRows measurements env.nRx (List.range env.nTx) with
        | .error e => .error e
        | .ok snrs =>
          .ok { txCols := txCols, rxCols := rxCols, txId := q.2.txId,
                rxAwvIds := q.2.rxAwvIds, measurements := measurements,
                snrDb := snrs.map env.db, minSnrDb := env.db q.1, minSnr := q.1 }

/-- The drain loop over the already-ordered pop sequence, threading the
`txIds` vector: each entry's row goes to the full stream; it also goes
to the reduced stream iff `differentRxConfigs || txId not yet in txIds`,
in which case the txId is appended to `txIds`.  Output: (full stream,
reduced stream, error raised by the first failing access if any); rows
written before a failure are kept, as the streams are files. -/
def processAll (env : Env) : List QueueEntry → List Nat → List Row × List Row × Option Err
  | [], _ => ([], [], none)
  | q :: rest, txIds =>
    match processEntry env q with
    | .error e => ([], [], some e)
    | .ok row =>
      let writeReduced := env.differentRxConfigs || !(txIds.contains q.2.txId)
      let p := processAll env rest (if writeReduced then txIds ++ [q.2.txId] else txIds)
      (row :: p.1, (if writeReduced then row :: p.2.1 else p.2.1), p.2.2)

/-- The whole `MuMimoMimoPhaseMeasurements` reduction: drain the queue
greatest-key-first and process every popped entry, starting from an
empty `txIds` vector. -/
def run (env : Env) (queue : List QueueEntry) : List Row × List Row × Option Err :=
  processAll env (drain queue) []

/-- Does processing one queue entry succeed (all its bounds-checked
accesses in range)? -/
def entryOk (env : Env) (q : QueueEntry) : Bool :=
  match processEntry env q with
  | .ok _ => true
  | .error _ => false

/-- Apply the reporting-boundary conversion to the dB fields of a row
(the only fields the conversion function can influence). -/
def applyDb (f : Snr → ℚ) (r : Row) : Row :=
  { r with snrDb := r.snrDb.map f, minSnrDb := f r.minSnrDb }

/-! ## SISO-phase completion (`MuMimoSisoPhaseComplete`)

On completion the handler dumps the feedback map to a trace file, ranks
candidates via `FindKBestCombinations (kBestCombinations, nTx, nRx,
feedbackMap)`, unconditionally appends AWVs to the codebook
(`AppendAwvsForSuMimoBFT_27`), and starts the MIMO phase with the ranked
candidates and a hardcoded `useAwvsInMimoPhase = false`.  The handler is
modelled as the ordered list of externally visible actions it performs;
the external `FindKBestCombinations` is a given function. -/

/-- The default of the global `kBestCombinations` (CLI-configurable). -/
def kBestCombinations : Nat := 15

/-- `MIMO_ANTENNA_COMBINATIONS_LIST`: ranked joint candidates. -/
abbrev MimoCandidates := List (List (Nat × Nat))

/-- `MIMO_FEEDBACK_MAP`: key (TX antenna, STA AID, TX sector), SNR value. -/
abbrev FeedbackMap := List ((Nat × Nat × Nat) × Snr)

/-- Externally visible actions of `MuMimoSisoPhaseComplete`, in order. -/
inductive SisoAction where
  | writeResultRow (staAid txAntennaId txSectorId : Nat) (snrDb : ℚ)
  | findKBest (k nTx nRx : Nat)
  | appendAwvsForSuMimoBFT
  | startMuMimoMimoPhase (candidates : MimoCandidates) (useAwvsInMimoPhase : Bool)
deriving DecidableEq, Repr

/-- Is an action a `StartMuMimoMimoPhase` call? -/
def isStartAction : SisoAction → Bool
  | .startMuMimoMimoPhase _ _ => true
  | _ => false

/-- The `MuMimoSisoPhaseComplete` handler as its action trace. -/
def muMimoSisoPhaseComplete (findKBest : Nat → Nat → Nat → FeedbackMap → MimoCandidates)
    (db : Snr → ℚ) (feedbackMap : FeedbackMap) (nTx nRx : Nat) : List SisoAction :=
  (feedbackMap.map fun e =>
    SisoAction.writeResultRow e.1.2.1 e.1.1 e.1.2.2 (db e.2))
  ++ [SisoAction.findKBest kBestCombinations nTx nRx,
      SisoAction.appendAwvsForSuMimoBFT,
      SisoAction.startMuMimoMimoPhase (findKBest kBestCombinations nTx nRx feedbackMap) false]

/-! ## SISO-phase measurements trace (`MuMimoSisoPhaseMeasurements`)

Pure trace writer: one row per entry of `MU_MIMO_SNR_MAP` (key: (short
SSW id, RX antenna id); value: linear SNR), converting the SNR to dB via
`RatioToDb` only in the written row.  The codebook lookup
`GetAntennaConfigurationShortSSW` is a given function. -/

/-- One row of the SISO measurements trace file. -/
structure SisoRow where
  rxAntennaId : Nat
  peerTxAntennaId : Nat
  peerTxSectorId : Nat
  snrDb : ℚ
deriving DecidableEq, Repr

/-- The `MuMimoSisoPhaseMeasurements` handler as its row list. -/
def muMimoSisoPhaseMeasurements (getConfig : Nat → Nat × Nat) (db : Snr → ℚ)
    (measurementsMap : List ((Nat × Nat) × Snr)) : List SisoRow :=
  measurementsMap.map fun e =>
    { rxAntennaId := e.1.2,
      peerTxAntennaId := (getConfig e.1.1).1,
      peerTxSectorId := (getConfig e.1.1).2,
      snrDb := db e.2 }

/-! ## MIMO candidates trace (`MuMimoMimoCandidatesSelected`)

`txCandidates` is `Antenna2SectorList`, a map antenna id → candidate
sector list, modelled as its key-ordered association list.  The handler
takes `numberOfCandidates = txCandidates.begin ()->second.size ()`
truncated to `uint8_t`, then for each `i < numberOfCandidates` writes a
row reading `it->second.at (i)` from every antenna.  Dereferencing
`begin ()` of an empty map is undefined behaviour in C++; it is modelled
as the error case. -/

/-- One row of the candidates file: position `i` of every antenna's
list, read with `.at (i)`. -/
def candidateRow (txCandidates : List (Nat × List Nat)) (i : Nat) :
    Except Err (List (Nat × Nat)) :=
  match txCandidates with
  | [] => .ok []
  | a :: rest =>
    match atNat a.2 i with
    | .error e => .error e
    | .ok s =>
      match candidateRow rest i with
      | .error e => .error e
      | .ok r => .ok ((a.1, s) :: r)

/-- The row loop: rows written before the first failing access are kept. -/
def candidateRowsLoop (txCandidates : List (Nat × List Nat)) :
    List Nat → List (List (Nat × Nat)) × Option Err
  | [] => ([], none)
  | i :: is =>
    match candidateRow txCandidates i with
    | .error e => ([], some e)
    | .ok r =>
      let p := candidateRowsLoop txCandidates is
      (r :: p.1, p.2)

/-- The `MuMimoMimoCandidatesSelected` handler: (header antenna count
`uint8_t (txCandidates.size ())`, rows, error). -/
def muMimoMimoCandidatesSelected (txCandidates : List (Nat × List Nat)) :
    Nat × List (List (Nat × Nat)) × Option Err :=
  match txCandidates with
  | [] => (0, [], some Err.outOfRange)
  | first :: _ =>
    let numberOfCandidates := first.2.length % 256
    let p := candidateRowsLoop txCandidates (List.range numberOfCandidates)
    (txCandidates.length % 256, p.1, p.2)

/-! ## Global counter state machine (`SLSCompleted`, `DTIStarted`)

The globals touched by the claims: `beamformedLinks` (`uint8_t`, starts
at 0) and `muMimoCompleted` (starts `false`).  `SLSCompleted` increments
`beamformedLinks` only inside its `if (!csv)` branch (and only for
`CHANNEL_ACCESS_DTI`); the AP's DTI-start handler schedules
`StartMuMimoBeamforming` when `beamformedLinks == 4 && !muMimoCompleted`. -/

inductive AccessPeriod where
  | dti
  | other
deriving DecidableEq, Repr

structure SimState where
  beamformedLinks : Nat
  muMimoCompleted : Bool
deriving DecidableEq, Repr

/-- Initial values of the globals. -/
def initialState : SimState := { beamformedLinks := 0, muMimoCompleted := false }

/-- The `SLSCompleted` handler's effect on the globals. -/
def slsCompleted (csv : Bool) (accessPeriod : AccessPeriod) (s : SimState) : SimState :=
  if !csv then
    if accessPeriod = AccessPeriod.dti then
      { s with beamformedLinks := (s.beamformedLinks + 1) % 256 }
    else s
  else s

/-- The AP's `DTIStarted` handler: new state (unchanged) and whether it
schedules `StartMuMimoBeamforming`. -/
def dtiStartedAp (s : SimState) : SimState × Bool :=
  if s.beamformedLinks = 4 ∧ s.muMimoCompleted = false then (s, true) else (s, false)

/-- The `MuMimoMimoPhaseComplete` handler's effect on the globals. -/
def mimoPhaseCompleteEffect (s : SimState) : SimState :=
  { s with muMimoCompleted := true }

/-- Events that touch the two globals during a run. -/
inductive Event where
  | slsCompleted (accessPeriod : AccessPeriod)
  | dtiStartedAp
  | mimoPhaseComplete
deriving DecidableEq, Repr

/-- One event step: next state, and whether MU-MIMO BFT was scheduled. -/
def step (csv : Bool) (s : SimState) : Event → SimState × Bool
  | .slsCompleted ap => (slsCompleted csv ap s, false)
  | .dtiStartedAp => dtiStartedAp s
  | .mimoPhaseComplete => (mimoPhaseCompleteEffect s, false)

/-- Run a whole event sequence: final state, and whether any event
scheduled `StartMuMimoBeamforming`. -/
def runEvents (csv : Bool) (s : SimState) : List Event → SimState × Bool
  | [] => (s, false)
  | e :: es =>
    let p := step csv s e
    let q := runEvents csv p.1 es
    (q.1, p.2 || q.2)

/-! ## Specification-side definitions

These two definitions follow the words of the specification (not the
source); they are compared against the source-derived definitions. -/

/-- Spec wording for the reduced stream: a row is kept iff no earlier
row with the same `txId` has been kept, starting from the already-seen
id set `seen`. -/
def specFirstPerTxId : List Row → List Nat → List Row
  | [], _ => []
  | r :: rs, seen =>
    if r.txId ∈ seen then specFirstPerTxId rs seen
    else r :: specFirstPerTxId rs (r.txId :: seen)

/-- Spec wording for the candidates-trace success condition: the map is
non-empty and every antenna's candidate list is at least as long as the
first antenna's list. -/
def specAllAtLeastFirst (txCandidates : List (Nat × List Nat)) : Bool :=
  match txCandidates with
  | [] => false
  | first :: _ => txCandidates.all fun a => first.2.length ≤ a.2.length

/-- The source-accurate success condition for the candidates trace: the
map is non-empty and every antenna's list is at least as long as the
first antenna's list length truncated to `uint8_t`. -/
def allAtLeastFirstTrunc (txCandidates : List (Nat × List Nat)) : Bool :=
  match txCandidates with
  | [] => false
  | first :: _ => txCandidates.all fun a => first.2.length % 256 ≤ a.2.length

/-! ## Concrete inputs used by witnesses and counterexamples -/

/-- A two-antenna environment with a 5-block sweep,
`rxCombinationsTested = 3` (single-stream rows, identity codebooks). -/
def env1 : Env :=
  { nTx := 1, nRx := 1, rxCombinationsTested := 3,
    sweep := [(10, [5]), (11, [6]), (12, [7]), (13, [8]), (14, [9])],
    getTxConfig := fun _ => [((1, 1), 1)],
    getRxConfig := fun _ => [((1, 1), 1)],
    db := fun x => x,
    differentRxConfigs := false }

/-- A queue holding the single pair (txId 2, rxId 2), whose block sits
at flat index (2 - 1) * 3 + (2 - 1) = 4. -/
def q1 : List QueueEntry := [((4 : ℚ), { txId := 2, rxAwvIds := [(1, 2)] })]

/-- The row the reduction emits for `env1` / `q1`. -/
def row1 : Row :=
  { txCols := [((1, 1), 1)], rxCols := [((1, 1), 1)], txId := 2,
    rxAwvIds := [(1, 2)], measurements := [(14, [9])], snrDb := [9],
    minSnrDb := (4 : ℚ), minSnr := (4 : ℚ) }

/-- Environment for the dedup witness: two queue entries share txId 1. -/
def env2 : Env :=
  { nTx := 1, nRx := 1, rxCombinationsTested := 2,
    sweep := [(0, [4]), (1, [2])],
    getTxConfig := fun _ => [((1, 1), 1)],
    getRxConfig := fun _ => [((1, 1), 1)],
    db := fun x => x,
    differentRxConfigs := false }

def q2 : List QueueEntry :=
  [((5 : ℚ), { txId := 1, rxAwvIds := [(1, 1)] }),
   ((3 : ℚ), { txId := 1, rxAwvIds := [(1, 2)] })]

/-- Environment whose sweep has 10 blocks while
`rxCombinationsTested = 4`: 10 is not a multiple of 4, so the sweep
length differs from `txCombinations.size () * rxCombinationsTested` for
every candidate-list size. -/
def env4 : Env :=
  { nTx := 1, nRx := 1, rxCombinationsTested := 4,
    sweep := List.replicate 10 (0, [1]),
    getTxConfig := fun _ => [((1, 1), 1)],
    getRxConfig := fun _ => [((1, 1), 1)],
    db := fun x => x,
    differentRxConfigs := false }

def q4 : List QueueEntry := [((1 : ℚ), { txId := 1, rxAwvIds := [(1, 1)] })]

/-- Environment with a two-block sweep but a queue of one entry. -/
def env5 : Env :=
  { nTx := 1, nRx := 1, rxCombinationsTested := 2,
    sweep := [(0, [1]), (1, [1])],
    getTxConfig := fun _ => [((1, 1), 1)],
    getRxConfig := fun _ => [((1, 1), 1)],
    db := fun x => x,
    differentRxConfigs := false }

def q5 : List QueueEntry := [((1 : ℚ), { txId := 1, rxAwvIds := [(1, 1)] })]

/-- Candidate map whose first antenna has 256 sectors (truncating to a
count of 0) while the second antenna has none. -/
def cexCandidates : List (Nat × List Nat) := [(1, List.replicate 256 0), (2, [])]

/-! ## Lemmas about bounds-checked access -/

theorem atNat_ok {l : List α} {i : Nat} {a : α} :
    atNat l i = .ok a ↔ l.get? i = some a := by
  unfold atNat
  cases h : l.get? i <;> simp [h]

theorem atNat_isOk {l : List α} {i : Nat} :
    (∃ a, atNat l i = .ok a) ↔ i < l.length := by
  unfold atNat
  cases h : l.get? i with
  | none =>
    simp only [List.get?_eq_none] at h
    constructor
    · rintro ⟨a, ha⟩; simp at ha
    · intro hi; omega
  | some a =>
    have hlt : i < l.length := by
      rcases List.get?_eq_some.mp h with ⟨hw, _⟩
      exact hw
    constructor
    · intro _; exact hlt
    · intro _; exact ⟨a, by simp⟩

/-! ## Lemmas about the priority-queue drain -/

theorem selectMax_length (e : QueueEntry) (l : List QueueEntry) :
    (selectMax e l).2.length = l.length := by
  induction l generalizing e with
  | nil => rfl
  | cons x xs ih =>
    unfold selectMax
    by_cases h : e.1 < x.1 <;> simp [h, ih]

theorem selectMax_perm (e : QueueEntry) (l : List QueueEntry) :
    List.Perm ((selectMax e l).1 :: (selectMax e l).2) (e :: l) := by
  induction l generalizing e with
  | nil => rfl
  | cons x xs ih =>
    unfold selectMax
    by_cases h : e.1 < x.1
    · simp only [h, if_true]
      exact ((List.Perm.swap e (selectMax x xs).1 (selectMax x xs).2).trans
        ((ih x).cons e)).trans (List.Perm.refl _)
    · simp only [h, if_false]
      exact ((List.Perm.swap x (selectMax e xs).1 (selectMax e xs).2).trans
        ((ih e).cons x)).trans (List.Perm.swap e x xs)

theorem selectMax_ge (e : QueueEntry) (l : List QueueEntry) :
    ∀ y ∈ e :: l, y.1 ≤ (selectMax e l).1.1 := by
  induction l generalizing e with
  | nil =>
    intro y hy
    simp only [List.mem_singleton] at hy
    simp [hy, selectMax]
  | cons x xs ih =>
    intro y hy
    unfold selectMax
    rcases List.mem_cons.mp hy with rfl | hy2
    · by_cases h : y.1 < x.1
      · simpa [h] using le_of_lt (lt_of_lt_of_le h (ih x x (List.mem_cons_self x xs)))
      · simpa [h] using ih y y (List.mem_cons_self y xs)
    · rcases List.mem_cons.mp hy2 with rfl | hy3
      · by_cases h : e.1 < y.1
        · simpa [h] using ih y y (List.mem_cons_self y xs)
        · simpa [h] using le_trans (le_of_not_lt h) (ih e e (List.mem_cons_self e xs))
      · by_cases h : e.1 < x.1
        · simpa [h] using ih x y (List.mem_cons.mpr (Or.inr hy3))
        · simpa [h] using ih e y (List.mem_cons.mpr (Or.inr hy3))

theorem drainAux_perm :
    ∀ (n : Nat) (l : List QueueEntry), l.length ≤ n → List.Perm (drainAux n l) l := by
  intro n
  induction n with
  | zero =>
    intro l hl
    rw [List.length_eq_zero.mp (Nat.le_zero.mp hl)]
    exact List.Perm.refl _
  | succ n ih =>
    intro l hl
    match l with
    | [] => exact List.Perm.refl _
    | x :: xs =>
      have hlen : (selectMax x xs).2.length ≤ n := by
        rw [selectMax_length]
        simpa using Nat.le_of_succ_le_succ hl
      exact ((ih _ hlen).cons (selectMax x xs).1).trans (selectMax_perm x xs)

theorem drain_perm (l : List QueueEntry) : List.Perm (drain l) l :=
  drainAux_perm l.length l (Nat.le_refl _)

theorem drain_length (l : List QueueEntry) : (drain l).length = l.length :=
  (drain_perm l).length_eq

theorem drainAux_pairwise :
    ∀ (n : Nat) (l : List QueueEntry), l.length ≤ n →
      (drainAux n l).Pairwise (fun a b => b.1 ≤ a.1) := by
  intro n
  induction n with
  | zero => intro l _; simp [drainAux]
  | succ n ih =>
    intro l hl
    match l with
    | [] => simp [drainAux]
    | x :: xs =>
      have hlen : (selectMax x xs).2.length ≤ n := by
        rw [selectMax_length]
        simpa using Nat.le_of_succ_le_succ hl
      refine List.pairwise_cons.mpr ⟨?_, ih _ hlen⟩
      intro y hy
      have hmem : y ∈ (selectMax x xs).2 := (drainAux_perm n _ hlen).mem_iff.mp hy
      have hmem2 : y ∈ (selectMax x xs).1 :: (selectMax x xs).2 :=
        List.mem_cons.mpr (Or.inr hmem)
      exact selectMax_ge x xs y ((selectMax_perm x xs).mem_iff.mp hmem2)

theorem drain_pairwise (l : List QueueEntry) :
    (drain l).Pairwise (fun a b => b.1 ≤ a.1) :=
  drainAux_pairwise l.length l (Nat.le_refl _)

/-! ## Lemmas about the reduction -/

theorem processEntry_ok {env : Env} {q : QueueEntry} {row : Row}
    (h : processEntry env q = .ok row) :
    row.txId = q.2.txId ∧ row.rxAwvIds = q.2.rxAwvIds ∧ row.minSnr = q.1 ∧
    row.minSnrDb = env.db q.1 ∧
    fetchMeasurements env.sweep env.rxCombinationsTested q.2.txId q.2.rxAwvIds
      = .ok row.measurements := by
  cases hF : fetchMeasurements env.sweep env.rxCombinationsTested q.2.txId q.2.rxAwvIds with
  | error e => simp [processEntry, hF] at h
  | ok ms =>
    cases hT : takeCheckedFrom (env.getTxConfig q.2.txId) 0 env.nTx with
    | error e => simp [processEntry, hF, hT] at h
    | ok txCols =>
      cases hR : takeCheckedFrom (env.getRxConfig q.2.rxAwvIds) 0 env.nRx with
      | error e => simp [processEntry, hF, hT, hR] at h
      | ok rxCols =>
        cases hS : snrRows ms env.nRx (List.range env.nTx) with
        | error e => simp [processEntry, hF, hT, hR, hS] at h
        | ok snrs =>
          simp only [processEntry, hF, hT, hR, hS, Except.ok.injEq] at h
          subst h
          exact ⟨rfl, rfl, rfl, rfl, rfl⟩

theorem processAll_full_mem {env : Env} :
    ∀ {l : List QueueEntry} {txIds : List Nat} {row : Row},
      row ∈ (processAll env l txIds).1 → ∃ q ∈ l, processEntry env q = .ok row := by
  intro l
  induction l with
  | nil => intro txIds row hrow; simp [processAll] at hrow
  | cons q rest ih =>
    intro txIds row hrow
    simp only [processAll] at hrow
    cases hq : processEntry env q with
    | error e => rw [hq] at hrow; simp at hrow
    | ok r =>
      rw [hq] at hrow
      simp only [List.mem_cons] at hrow
      rcases hrow with rfl | hrow2
      · exact ⟨q, List.mem_cons_self q rest, hq⟩
      · rcases ih hrow2 with ⟨p, hp, hpe⟩
        exact ⟨p, List.mem_cons.mpr (Or.inr hp), hpe⟩

theorem processAll_length_of_none {env : Env} :
    ∀ {l : List QueueEntry} {txIds : List Nat},
      (processAll env l txIds).2.2 = none →
      (processAll env l txIds).1.length = l.length := by
  intro l
  induction l with
  | nil => intro txIds _; rfl
  | cons q rest ih =>
    intro txIds hnone
    cases hq : processEntry env q with
    | error e => simp [processAll, hq] at hnone
    | ok r =>
      simp only [processAll, hq, List.length_cons] at hnone ⊢
      rw [ih hnone]

theorem processAll_full_keys_sublist {env : Env} :
    ∀ {l : List QueueEntry} {txIds : List Nat},
      List.Sublist ((processAll env l txIds).1.map Row.minSnr) (l.map fun e => e.1) := by
  intro l
  induction l with
  | nil => intro txIds; simp [processAll]
  | cons q rest ih =>
    intro txIds
    simp only [processAll]
    cases hq : processEntry env q with
    | error e => simp
    | ok r =>
      simp only [List.map_cons]
      have hr : r.minSnr = q.1 := (processEntry_ok hq).2.2.1
      rw [hr]
      exact List.Sublist.cons₂ q.1 ih

theorem processAll_reduced_sublist {env : Env} :
    ∀ {l : List QueueEntry} {txIds : List Nat},
      List.Sublist (processAll env l txIds).2.1 (processAll env l txIds).1 := by
  intro l
  induction l with
  | nil => intro txIds; simp [processAll]
  | cons q rest ih =>
    intro txIds
    simp only [processAll]
    cases hq : processEntry env q with
    | error e => simp
    | ok r =>
      by_cases hw : (env.differentRxConfigs || !(txIds.contains q.2.txId)) = true
      · simp only [hw, if_true]
        exact List.Sublist.cons₂ r ih
      · simp only [hw, if_false]
        exact List.Sublist.cons r ih

theorem processAll_reduced_of_true {env : Env} (hflag : env.differentRxConfigs = true) :
    ∀ {l : List QueueEntry} {txIds : List Nat},
      (processAll env l txIds).2.1 = (processAll env l txIds).1 := by
  intro l
  induction l with
  | nil => intro txIds; rfl
  | cons q rest ih =>
    intro txIds
    cases hq : processEntry env q with
    | error e => simp [processAll, hq]
    | ok r => simp [processAll, hq, hflag, ih]

theorem processAll_reduced_of_false {env : Env} (hflag : env.differentRxConfigs = false) :
    ∀ {l : List QueueEntry} {txIds seen : List Nat},
      (∀ a : Nat, a ∈ txIds ↔ a ∈ seen) →
      (processAll env l txIds).2.1 = specFirstPerTxId (processAll env l txIds).1 seen := by
  intro l
  induction l with
  | nil => intro txIds seen hms; rfl
  | cons q rest ih =>
    intro txIds seen hms
    cases hq : processEntry env q with
    | error e => simp [processAll, hq, specFirstPerTxId]
    | ok r =>
      have htx : r.txId = q.2.txId := (processEntry_ok hq).1
      by_cases hmem : q.2.txId ∈ txIds
      · have hcont : txIds.contains q.2.txId = true := by simpa using hmem
        have hseen : r.txId ∈ seen := htx ▸ (hms q.2.txId).mp hmem
        simp only [processAll, hq, hflag, hcont, Bool.false_or, Bool.not_true, if_false,
          specFirstPerTxId, hseen, if_true]
        exact ih hms
      · have hcont : txIds.contains q.2.txId = false := by
          simp [List.contains]; exact hmem
        have hseen : r.txId ∉ seen := htx ▸ fun hc => hmem ((hms q.2.txId).mpr hc)
        simp only [processAll, hq, hflag, hcont, Bool.false_or, Bool.not_false, if_true,
          specFirstPerTxId, hseen, if_false, List.cons.injEq, true_and]
        refine ih ?_
        intro a
        rw [htx]
        simp only [List.mem_append, List.mem_singleton, List.mem_cons]
        rw [hms a]
        tauto

theorem specFirstPerTxId_nodup :
    ∀ (l : List Row) (seen : List Nat),
      ((specFirstPerTxId l seen).map Row.txId).Nodup ∧
      ∀ r ∈ specFirstPerTxId l seen, r.txId ∉ seen := by
  intro l
  induction l with
  | nil => intro seen; exact ⟨List.nodup_nil, by simp [specFirstPerTxId]⟩
  | cons r rs ih =>
    intro seen
    by_cases hmem : r.txId ∈ seen
    · simp only [specFirstPerTxId, hmem, if_true]
      exact ih seen
    · simp only [specFirstPerTxId, hmem, if_false]
      constructor
      · simp only [List.map_cons, List.nodup_cons]
        refine ⟨?_, (ih (r.txId :: seen)).1⟩
        intro hc
        rcases List.mem_map.mp hc with ⟨s, hs, hst⟩
        exact (ih (r.txId :: seen)).2 s hs (by rw [hst]; exact List.mem_cons_self _ _)
      · intro s hs
        rcases List.mem_cons.mp hs with rfl | hs2
        · exact hmem
        · intro hcon
          exact (ih (r.txId :: seen)).2 s hs2 (List.mem_cons.mpr (Or.inr hcon))

theorem processAll_none_iff {env : Env} :
    ∀ {l : List QueueEntry} {txIds : List Nat},
      (processAll env l txIds).2.2 = none ↔ l.all (entryOk env) = true := by
  intro l
  induction l with
  | nil => intro txIds; simp [processAll]
  | cons q rest ih =>
    intro txIds
    cases hq : processEntry env q with
    | error e => simp [processAll, hq, entryOk]
    | ok r => simp [processAll, hq, entryOk, ih]

theorem run_none_iff (env : Env) (queue : List QueueEntry) :
    (run env queue).2.2 = none ↔ queue.all (entryOk env) = true := by
  rw [run, processAll_none_iff]
  simp only [List.all_eq_true]
  constructor
  · intro h e he
    exact h e ((drain_perm queue).mem_iff.mpr he)
  · intro h e he
    exact h e ((drain_perm queue).mem_iff.mp he)

theorem atIdx_ok {l : List α} {i : Int} {a : α} (h : atIdx l i = .ok a) :
    0 ≤ i ∧ l.get? i.toNat = some a := by
  unfold atIdx at h
  by_cases hi : i < 0
  · simp [hi] at h
  · simp only [hi, if_false] at h
    exact ⟨le_of_not_lt hi, atNat_ok.mp h⟩

theorem fetchMeasurements_length :
    ∀ {rxs : List (Nat × Nat)} {sweep : List SweepElem} {rxC txId : Nat}
      {ms : List SweepElem},
      fetchMeasurements sweep rxC txId rxs = .ok ms → ms.length = rxs.length := by
  intro rxs
  induction rxs with
  | nil =>
    intro sweep rxC txId ms h
    simp only [fetchMeasurements, Except.ok.injEq] at h
    subst h; rfl
  | cons r0 rs ih =>
    intro sweep rxC txId ms h
    cases hA : atIdx sweep (((txId : Int) - 1) * (rxC : Int) + (r0.2 : Int) - 1) with
    | error e => simp [fetchMeasurements, hA] at h
    | ok m0 =>
      cases hRest : fetchMeasurements sweep rxC txId rs with
      | error e => simp [fetchMeasurements, hA, hRest] at h
      | ok ms0 =>
        simp only [fetchMeasurements, hA, hRest, Except.ok.injEq] at h
        subst h
        simp [ih hRest]

theorem fetchMeasurements_get :
    ∀ {rxs : List (Nat × Nat)} {sweep : List SweepElem} {rxC txId : Nat}
      {ms : List SweepElem},
      fetchMeasurements sweep rxC txId rxs = .ok ms →
      ∀ (k : Nat) (r : Nat × Nat), rxs.get? k = some r →
        ∃ m, ms.get? k = some m ∧
          atIdx sweep (((txId : Int) - 1) * (rxC : Int) + (r.2 : Int) - 1) = .ok m := by
  intro rxs
  induction rxs with
  | nil => intro sweep rxC txId ms h k r hk; simp at hk
  | cons r0 rs ih =>
    intro sweep rxC txId ms h k r hk
    cases hA : atIdx sweep (((txId : Int) - 1) * (rxC : Int) + (r0.2 : Int) - 1) with
    | error e => simp [fetchMeasurements, hA] at h
    | ok m0 =>
      cases hRest : fetchMeasurements sweep rxC txId rs with
      | error e => simp [fetchMeasurements, hA, hRest] at h
      | ok ms0 =>
        simp only [fetchMeasurements, hA, hRest, Except.ok.injEq] at h
        subst h
        match k with
        | 0 =>
          simp only [List.get?_cons_zero, Option.some.injEq] at hk
          subst hk
          exact ⟨m0, rfl, hA⟩
        | k + 1 =>
          simp only [List.get?_cons_succ] at hk ⊢
          exact ih hRest k r hk

theorem processEntry_db (env : Env) (f : Snr → ℚ) (q : QueueEntry) :
    processEntry { env with db := f } q
      = Except.map (applyDb f) (processEntry { env with db := fun x => x } q) := by
  cases hF : fetchMeasurements env.sweep env.rxCombinationsTested q.2.txId q.2.rxAwvIds with
  | error e => simp [processEntry, hF, Except.map]
  | ok ms =>
    cases hT : takeCheckedFrom (env.getTxConfig q.2.txId) 0 env.nTx with
    | error e => simp [processEntry, hF, hT, Except.map]
    | ok txCols =>
      cases hR : takeCheckedFrom (env.getRxConfig q.2.rxAwvIds) 0 env.nRx with
      | error e => simp [processEntry, hF, hT, hR, Except.map]
      | ok rxCols =>
        cases hS : snrRows ms env.nRx (List.range env.nTx) with
        | error e => simp [processEntry, hF, hT, hR, hS, Except.map]
        | ok snrs =>
          simp [processEntry, hF, hT, hR, hS, Except.map, applyDb, List.map_map,
            Function.comp]

theorem processAll_db (env : Env) (f : Snr → ℚ) :
    ∀ (l : List QueueEntry) (txIds : List Nat),
      processAll { env with db := f } l txIds
        = ((processAll { env with db := fun x => x } l txIds).1.map (applyDb f),
           (processAll { env with db := fun x => x } l txIds).2.1.map (applyDb f),
           (processAll { env with db := fun x => x } l txIds).2.2) := by
  intro l
  induction l with
  | nil => intro txIds; rfl
  | cons q rest ih =>
    intro txIds
    cases hq : processEntry { env with db := fun x => x } q with
    | error e =>
      have hf : processEntry { env with db := f } q = .error e := by
        rw [processEntry_db, hq]; rfl
      simp [processAll, hq, hf]
    | ok r =>
      have hf : processEntry { env with db := f } q = .ok (applyDb f r) := by
        rw [processEntry_db, hq]; rfl
      by_cases hw : (env.differentRxConfigs || !(txIds.contains q.2.txId)) = true
      · simp [processAll, hq, hf, hw, ih, apply_ite (List.map (applyDb f))]
      · simp [processAll, hq, hf, hw, ih, apply_ite (List.map (applyDb f))]

/-! ## Lemmas about the counter state machine -/

theorem runEvents_csv_true (es : List Event) :
    ∀ s : SimState, s.beamformedLinks = 0 →
      (runEvents true s es).1.beamformedLinks = 0 ∧ (runEvents true s es).2 = false := by
  induction es with
  | nil => intro s hs; exact ⟨hs, rfl⟩
  | cons e es ih =>
    intro s hs
    cases e with
    | slsCompleted ap =>
      have hstep : slsCompleted true ap s = s := by simp [slsCompleted]
      simpa [runEvents, step, hstep] using ih s hs
    | dtiStartedAp =>
      have hd : dtiStartedAp s = (s, false) := by simp [dtiStartedAp, hs]
      simpa [runEvents, step, hd] using ih s hs
    | mimoPhaseComplete =>
      have hb : (mimoPhaseCompleteEffect s).beamformedLinks = 0 := hs
      simpa [runEvents, step] using ih _ hb

/-! ## Lemmas about the candidates trace -/

theorem candidateRow_ok_iff (t : List (Nat × List Nat)) (i : Nat) :
    (∃ r, candidateRow t i = .ok r) ↔ ∀ a ∈ t, i < a.2.length := by
  induction t with
  | nil => simp [candidateRow]
  | cons a rest ih =>
    constructor
    · rintro ⟨r, hr⟩ b hb
      cases hA : atNat a.2 i with
      | error e => simp [candidateRow, hA] at hr
      | ok s =>
        cases hR : candidateRow rest i with
        | error e => simp [candidateRow, hA, hR] at hr
        | ok rr =>
          rcases List.mem_cons.mp hb with rfl | hb2
          · exact atNat_isOk.mp ⟨s, hA⟩
          · exact ih.mp ⟨rr, hR⟩ b hb2
    · intro hall
      have h1 : i < a.2.length := hall a (List.mem_cons_self a rest)
      obtain ⟨s, hs⟩ := atNat_isOk.mpr h1
      obtain ⟨rr, hrr⟩ := ih.mpr fun b hb => hall b (List.mem_cons.mpr (Or.inr hb))
      exact ⟨(a.1, s) :: rr, by simp [candidateRow, hs, hrr]⟩

theorem candidateRowsLoop_none_iff (t : List (Nat × List Nat)) :
    ∀ is : List Nat,
      (candidateRowsLoop t is).2 = none ↔ ∀ i ∈ is, ∃ r, candidateRow t i = .ok r := by
  intro is
  induction is with
  | nil => simp [candidateRowsLoop]
  | cons i rest ih =>
    cases hc : candidateRow t i with
    | error e =>
      refine iff_of_false (by simp [candidateRowsLoop, hc]) ?_
      intro h
      rcases h i (List.mem_cons_self i rest) with ⟨r, hr⟩
      rw [hc] at hr
      cases hr
    | ok r =>
      constructor
      · intro h j hj
        rcases List.mem_cons.mp hj with rfl | hj2
        · exact ⟨r, hc⟩
        · refine ih.mp ?_ j hj2
          simpa [candidateRowsLoop, hc] using h
      · intro h
        have hrest : (candidateRowsLoop t rest).2 = none :=
          ih.mpr fun j hj => h j (List.mem_cons.mpr (Or.inr hj))
        simpa [candidateRowsLoop, hc] using hrest

theorem candidates_success_characterization (t : List (Nat × List Nat)) :
    (muMimoMimoCandidatesSelected t).2.2 = none ↔ allAtLeastFirstTrunc t = true := by
  match t with
  | [] => simp [muMimoMimoCandidatesSelected, allAtLeastFirstTrunc]
  | first :: rest =>
    simp only [muMimoMimoCandidatesSelected, allAtLeastFirstTrunc]
    rw [candidateRowsLoop_none_iff]
    constructor
    · intro h
      rw [List.all_eq_true]
      intro a ha
      by_cases hc : first.2.length % 256 = 0
      · simp [hc]
      · have hidx : first.2.length % 256 - 1 ∈ List.range (first.2.length % 256) :=
          List.mem_range.mpr (by omega)
        obtain ⟨r, hr⟩ := h _ hidx
        have hlt := (candidateRow_ok_iff _ _).mp ⟨r, hr⟩ a ha
        simp only [decide_eq_true_eq]
        omega
    · intro h i hi
      rw [List.all_eq_true] at h
      refine (candidateRow_ok_iff _ _).mpr ?_
      intro a ha
      have h1 := h a ha
      have h2 := List.mem_range.mp hi
      simp only [decide_eq_true_eq] at h1
      omega

/-- Bridge from 1-based ids to the flat `Nat` index. -/
theorem toNat_index (a b rxC : Nat) :
    ((((a + 1 : Nat) : Int) - 1) * (rxC : Int) + ((b + 1 : Nat) : Int) - 1).toNat
      = a * rxC + b := by
  have hcast : (((a + 1 : Nat) : Int) - 1) * (rxC : Int) + ((b + 1 : Nat) : Int) - 1
      = ((a * rxC + b : Nat) : Int) := by push_cast; ring
  rw [hcast]
  exact Int.toNat_natCast _

/-! ## Claims -/

/-- C1: in the MIMO score reduction, the per-stream measurement block
for a (tx, rx) combination pair is fetched from the flat sweep at index
(txIndex − 1) × rxCombinationsTested + (rxIndex − 1), with 1-based
external indices; for every popped queue entry the emitted measurements
are exactly the sweep elements at those indices. -/
theorem mimo_sweep_indexing (env : Env) (queue : List QueueEntry)
    (full red : List Row) (hrun : run env queue = (full, red, none))
    (hbased : ∀ e ∈ queue, 1 ≤ e.2.txId ∧ ∀ r ∈ e.2.rxAwvIds, 1 ≤ r.2) :
    ∀ row ∈ full, row.measurements.length = row.rxAwvIds.length ∧
      ∀ (k : Nat) (r : Nat × Nat), row.rxAwvIds.get? k = some r →
        row.measurements.get? k
          = env.sweep.get? ((row.txId - 1) * env.rxCombinationsTested + (r.2 - 1)) := by
  intro row hrow
  have hfull1 : (processAll env (drain queue) []).1 = full := by
    rw [run] at hrun
    rw [hrun]
  obtain ⟨q, hq_mem, hq_ok⟩ := processAll_full_mem (hfull1 ▸ hrow)
  have hq_queue : q ∈ queue := (drain_perm queue).mem_iff.mp hq_mem
  obtain ⟨htx, hrx, hmin, hmindb, hfetch⟩ := processEntry_ok hq_ok
  have hb := hbased q hq_queue
  constructor
  · rw [hrx]
    exact fetchMeasurements_length hfetch
  · intro k r hk
    have hk2 : q.2.rxAwvIds.get? k = some r := by rw [← hrx]; exact hk
    obtain ⟨m, hm, hat⟩ := fetchMeasurements_get hfetch k r hk2
    have hr_mem : r ∈ q.2.rxAwvIds := List.get?_mem hk2
    have h1 : 1 ≤ q.2.txId := hb.1
    have h2 : 1 ≤ r.2 := hb.2 r hr_mem
    obtain ⟨hge, hget⟩ := atIdx_ok hat
    obtain ⟨a, ha⟩ : ∃ a, q.2.txId = a + 1 := ⟨q.2.txId - 1, by omega⟩
    obtain ⟨b, hbb⟩ : ∃ b, r.2 = b + 1 := ⟨r.2 - 1, by omega⟩
    rw [ha, hbb, toNat_index] at hget
    rw [hm, htx, ha, hbb]
    have harith : (a + 1 - 1) * env.rxCombinationsTested + (b + 1 - 1)
        = a * env.rxCombinationsTested + b := by simp
    rw [harith]
    exact hget.symm

/-- C1 witness: concrete instantiation at `env1` / `q1`, whose single
entry (txId 2, rxId 2) reads the sweep block at flat index
(2 − 1) × 3 + (2 − 1) = 4. -/
theorem mimo_sweep_indexing_witness :
    row1.measurements.get? 0
      = env1.sweep.get? ((row1.txId - 1) * env1.rxCombinationsTested + ((1, 2).2 - 1)) :=
  ((mimo_sweep_indexing env1 q1 [row1] [row1] (by decide) (by decide))
    row1 (by decide)).2 0 (1, 2) (by decide)

/-- C2: during the drain, with `allowDifferentRxPerTx`
(`differentRxConfigs`) false an entry reaches the reduced stream iff no
earlier-popped entry with the same txId was already written there, while
every popped entry reaches the full stream; with the flag true every
popped entry reaches both streams; hence the reduced stream never holds
two entries sharing a txId unless the flag is true. -/
theorem reduced_stream_dedup (env : Env) (queue : List QueueEntry)
    (full red : List Row) (hrun : run env queue = (full, red, none)) :
    full.length = queue.length ∧
    red = (if env.differentRxConfigs then full else specFirstPerTxId full []) ∧
    (env.differentRxConfigs = true ∨ (red.map Row.txId).Nodup) := by
  have hrun2 : processAll env (drain queue) [] = (full, red, none) := hrun
  have hfull : (processAll env (drain queue) []).1 = full := by rw [hrun2]
  have hred : (processAll env (drain queue) []).2.1 = red := by rw [hrun2]
  have hnone : (processAll env (drain queue) []).2.2 = none := by rw [hrun2]
  have hfalse : ¬env.differentRxConfigs = true → env.differentRxConfigs = false := by
    cases env.differentRxConfigs <;> simp
  refine ⟨?_, ?_, ?_⟩
  · rw [← hfull, processAll_length_of_none hnone, drain_length]
  · by_cases hflag : env.differentRxConfigs
    · rw [if_pos hflag, ← hred, ← hfull]
      exact processAll_reduced_of_true hflag
    · rw [if_neg hflag, ← hred, ← hfull]
      exact processAll_reduced_of_false (hfalse hflag) fun a => Iff.rfl
  · by_cases hflag : env.differentRxConfigs
    · exact Or.inl hflag
    · right
      have hspec := @processAll_reduced_of_false env (hfalse hflag)
        (drain queue) [] [] fun a => Iff.rfl
      rw [hfull, hred] at hspec
      rw [hspec]
      exact (specFirstPerTxId_nodup full []).1

/-- C2 witness: concrete instantiation at `env2` / `q2`, whose two
entries share txId 1; the full stream keeps both, the reduced one. -/
theorem reduced_stream_dedup_witness :
    (run env2 q2).1.length = q2.length ∧
    (run env2 q2).2.1 = (if env2.differentRxConfigs then (run env2 q2).1
      else specFirstPerTxId (run env2 q2).1 []) ∧
    (env2.differentRxConfigs = true ∨ ((run env2 q2).2.1.map Row.txId).Nodup) :=
  reduced_stream_dedup env2 q2 (run env2 q2).1 (run env2 q2).2.1 (by decide)

/-- C3: both result streams of the reduction list their entries in
descending order of the min-stream quality key, because entries are
emitted by popping a max-first priority structure keyed by it. -/
theorem streams_sorted_desc (env : Env) (queue : List QueueEntry) :
    ((run env queue).1.map Row.minSnr).Pairwise (fun a b => b ≤ a) ∧
    ((run env queue).2.1.map Row.minSnr).Pairwise (fun a b => b ≤ a) := by
  have hsorted : ((drain queue).map fun e => e.1).Pairwise (fun a b : ℚ => b ≤ a) :=
    List.pairwise_map.mpr (drain_pairwise queue)
  have hfull : ((run env queue).1.map Row.minSnr).Pairwise (fun a b => b ≤ a) := by
    refine List.Pairwise.sublist ?_ hsorted
    rw [run]
    exact processAll_full_keys_sublist
  refine ⟨hfull, ?_⟩
  refine List.Pairwise.sublist ?_ hfull
  refine List.Sublist.map Row.minSnr ?_
  rw [run]
  exact processAll_reduced_sublist
/-- C4 counterexample: a sweep of 10 blocks with
`rxCombinationsTested = 4` (so its length differs from
txCombinations.size () × rxCombinationsTested whatever the candidate
count, since 10 is not a multiple of 4) is reduced without any error and
with output produced: no `SweepSizeMismatch`-style length check exists. -/
theorem sweep_mismatch_not_detected :
    (run env4 q4).2.2 = none ∧ (run env4 q4).1.length = 1 ∧
    env4.sweep.length = 10 ∧ env4.rxCombinationsTested = 4 ∧ 10 % 4 ≠ 0 := by
  decide

/-- C4 amended: the reduction performs no sweep-length validation at
all; it completes without error iff every queue entry's bounds-checked
accesses (the sweep fetch at (txId − 1) × rxCombinationsTested + rxId −
1 and the per-row column reads) are in range, and the first failing
access aborts the drain. -/
theorem reduce_fails_iff_access_out_of_range (env : Env) (queue : List QueueEntry) :
    (run env queue).2.2 = none ↔ queue.all (entryOk env) = true :=
  run_none_iff env queue

/-- C5 counterexample: a queue holding one entry over a two-block sweep
emits 1 full-stream entry, not min(kBestCombinations, 2) = 2: the drain
applies no K bound and emits one entry per queue element. -/
theorem emission_count_not_min_k :
    (run env5 q5).2.2 = none ∧
    (run env5 q5).1.length ≠ min kBestCombinations env5.sweep.length := by
  decide

/-- C5 amended: on a successful reduction the full stream holds exactly
one entry per queue element and the reduced stream at most that many;
`kBestCombinations` is not consulted during the drain. -/
theorem emission_count_equals_queue_size (env : Env) (queue : List QueueEntry)
    (hnone : (run env queue).2.2 = none) :
    (run env queue).1.length = queue.length ∧
    (run env queue).2.1.length ≤ queue.length := by
  have h1 : (run env queue).1.length = queue.length := by
    rw [run] at hnone ⊢
    rw [processAll_length_of_none hnone, drain_length]
  refine ⟨h1, ?_⟩
  have hsub : List.Sublist (run env queue).2.1 (run env queue).1 := by
    rw [run]
    exact processAll_reduced_sublist
  exact le_trans hsub.length_le (le_of_eq h1)

/-- C5 witness: concrete instantiation at `env5` / `q5`. -/
theorem emission_count_equals_queue_size_witness :
    (run env5 q5).1.length = q5.length ∧ (run env5 q5).2.1.length ≤ q5.length :=
  emission_count_equals_queue_size env5 q5 (by decide)

/-- C6: the drain (ordering, dedup decisions, errors and every non-dB
field) is invariant under the choice of the dB conversion; the
conversion is applied only to the dB fields of the written rows, where
the min-stream dB column is the conversion of the linear key; the SISO
measurement writer likewise applies the conversion only to its written
SNR column. -/
theorem db_conversion_only_at_reporting (env : Env) (queue : List QueueEntry)
    (getConfig : Nat → Nat × Nat) (db0 : Snr → ℚ) (mm : List ((Nat × Nat) × Snr)) :
    (run env queue).1
        = (run { env with db := fun x => x } queue).1.map (applyDb env.db) ∧
    (run env queue).2.1
        = (run { env with db := fun x => x } queue).2.1.map (applyDb env.db) ∧
    (run env queue).2.2 = (run { env with db := fun x => x } queue).2.2 ∧
    (run env queue).1.map Row.minSnrDb
        = (run env queue).1.map (fun r => env.db r.minSnr) ∧
    muMimoSisoPhaseMeasurements getConfig db0 mm
        = (muMimoSisoPhaseMeasurements getConfig (fun x => x) mm).map
            (fun r => { r with snrDb := db0 r.snrDb }) := by
  have hmain : run env queue
      = ((run { env with db := fun x => x } queue).1.map (applyDb env.db),
         (run { env with db := fun x => x } queue).2.1.map (applyDb env.db),
         (run { env with db := fun x => x } queue).2.2) :=
    processAll_db env env.db (drain queue) []
  have hbase : ∀ row ∈ (run { env with db := fun x => x } queue).1,
      row.minSnrDb = row.minSnr := by
    intro row hrow
    obtain ⟨q, _, hq⟩ := processAll_full_mem hrow
    obtain ⟨_, _, hmin, hmindb, _⟩ := processEntry_ok hq
    rw [hmindb, hmin]
  refine ⟨?_, ?_, ?_, ?_, ?_⟩
  · rw [hmain]
  · rw [hmain]
  · rw [hmain]
  · rw [hmain]
    simp only [List.map_map]
    refine List.map_congr_left ?_
    intro r hr
    simp only [Function.comp_apply, applyDb]
    rw [hbase r hr]
  · simp [muMimoSisoPhaseMeasurements, List.map_map, Function.comp]

/-- C7 counterexample: in the SISO-completion handler the codebook AWV
append (`AppendAwvsForSuMimoBFT_27`) is performed although the only
`StartMuMimoMimoPhase` call carries `useAwvsInMimoPhase = false` and no
call with the flag true exists: the refinement is not gated by the flag. -/
theorem awv_append_despite_flag_false :
    SisoAction.appendAwvsForSuMimoBFT
        ∈ muMimoSisoPhaseComplete (fun _ _ _ _ => []) (fun x => x) [] 2 2 ∧
    SisoAction.startMuMimoMimoPhase [] false
        ∈ muMimoSisoPhaseComplete (fun _ _ _ _ => []) (fun x => x) [] 2 2 ∧
    SisoAction.startMuMimoMimoPhase [] true
        ∉ muMimoSisoPhaseComplete (fun _ _ _ _ => []) (fun x => x) [] 2 2 := by
  decide

/-- C7 amended: the AWV append runs unconditionally in the
SISO-completion handler; `useAwvsInMimoPhase` is hardcoded `false` and
only forwarded to `StartMuMimoMimoPhase`, without gating the append. -/
theorem awv_append_unconditional
    (findKBest : Nat → Nat → Nat → FeedbackMap → MimoCandidates) (db0 : Snr → ℚ)
    (feedbackMap : FeedbackMap) (nTx nRx : Nat) :
    SisoAction.appendAwvsForSuMimoBFT
        ∈ muMimoSisoPhaseComplete findKBest db0 feedbackMap nTx nRx ∧
    SisoAction.startMuMimoMimoPhase (findKBest kBestCombinations nTx nRx feedbackMap) false
        ∈ muMimoSisoPhaseComplete findKBest db0 feedbackMap nTx nRx := by
  unfold muMimoSisoPhaseComplete
  constructor <;> simp

/-- C8: on SISO completion the handler invokes the ranking with the
configured K, the antenna counts and the collected feedback map, then
starts the MIMO phase with exactly the candidate set the ranking
produced; the one start action follows the ranking invocation. -/
theorem siso_complete_ranks_then_starts
    (findKBest : Nat → Nat → Nat → FeedbackMap → MimoCandidates) (db0 : Snr → ℚ)
    (feedbackMap : FeedbackMap) (nTx nRx : Nat) :
    (muMimoSisoPhaseComplete findKBest db0 feedbackMap nTx nRx).get? feedbackMap.length
        = some (SisoAction.findKBest kBestCombinations nTx nRx) ∧
    (muMimoSisoPhaseComplete findKBest db0 feedbackMap nTx nRx).get? (feedbackMap.length + 2)
        = some (SisoAction.startMuMimoMimoPhase
            (findKBest kBestCombinations nTx nRx feedbackMap) false) ∧
    (muMimoSisoPhaseComplete findKBest db0 feedbackMap nTx nRx).filter isStartAction
        = [SisoAction.startMuMimoMimoPhase
            (findKBest kBestCombinations nTx nRx feedbackMap) false] := by
  unfold muMimoSisoPhaseComplete
  refine ⟨?_, ?_, ?_⟩
  · rw [List.get?_eq_getElem?, List.getElem?_append_right (by simp)]
    simp
  · rw [List.get?_eq_getElem?, List.getElem?_append_right (by simp)]
    simp
  · rw [List.filter_append]
    have hmap : (feedbackMap.map fun e =>
        SisoAction.writeResultRow e.1.2.1 e.1.1 e.1.2.2 (db0 e.2)).filter isStartAction
          = [] := by
      rw [List.filter_eq_nil_iff]
      intro a ha
      rcases List.mem_map.mp ha with ⟨e, _, rfl⟩
      simp [isStartAction]
    rw [hmap]
    rfl

/-- C9: with CSV output enabled the `beamformedLinks` counter is never
incremented (the increment sits in the non-CSV branch of
`SLSCompleted`), so the AP's DTI-start condition `beamformedLinks == 4`
never holds and `StartMuMimoBeamforming` is never scheduled. -/
theorem csv_true_blocks_mu_mimo_start (events : List Event) :
    (runEvents true initialState events).1.beamformedLinks = 0 ∧
    (runEvents true initialState events).2 = false :=
  runEvents_csv_true events initialState rfl

/-- C10 counterexample: a candidate map whose first antenna holds 256
sectors and whose second holds none completes without error (the count
truncates to 0), although the second list is shorter than the first:
the claimed untruncated length condition is not equivalent to success. -/
theorem candidates_trace_truncation_breaks_claim :
    (muMimoMimoCandidatesSelected cexCandidates).2.2 = none ∧
    specAllAtLeastFirst cexCandidates = false := by
  decide

/-- C10 amended: the candidates trace writer completes without error iff
the map is non-empty and every antenna's candidate list is at least as
long as the first antenna's list length truncated to `uint8_t`;
otherwise a position access fails out of range (the empty map, undefined
behaviour in the source, is modelled as the failure case). -/
theorem candidates_trace_success_iff (txCandidates : List (Nat × List Nat)) :
    (muMimoMimoCandidatesSelected txCandidates).2.2 = none ↔
      allAtLeastFirstTrunc txCandidates = true :=
  candidates_success_characterization txCandidates

end EvaluateMuMimo
